import Mathlib

/-!
# Verification of the Omniglot foreign-memory safety layer

A shallow embedding of the core data structures and operations of the
Omniglot crate (branding/identity, bit-pattern validation, the foreign
reference family, and the mock runtime's allocation chain), together with
proofs and refutations of the specification claims about them.

Machine integers (`usize`, `u64`) are modelled as `Nat` with explicit
bound constants where overflow behaviour matters.  Fallible Rust code is
modelled with `Option`/`Except`, and code paths that panic in Rust are
modelled by dedicated result constructors, so that "returns an error"
and "aborts" are distinguishable outcomes.
-/

namespace Omniglot

/-- `usize::MAX` on the 64-bit targets the crate is developed for. -/
def USIZE_MAX : Nat := 2 ^ 64 - 1

/-- `isize::MAX` on 64-bit targets. -/
def ISIZE_MAX : Nat := 2 ^ 63 - 1

/-- `u64::MAX`. -/
def U64_MAX : Nat := 2 ^ 64 - 1

/-- The `disable_upgrade_checks` crate feature
(`src/omniglot/src/foreign_memory/mod.rs`).  It is off in the default
configuration, which is the configuration this development models. -/
def DISABLE_UPGRADE_CHECKS : Bool := false

/-- The `disable_validation_checks` crate feature
(`src/omniglot/src/foreign_memory/mod.rs`).  Off by default. -/
def DISABLE_VALIDATION_CHECKS : Bool := false

/-- Helper for `trailingZeros`: scan at most `fuel` low bits. -/
def trailingZerosAux : Nat → Nat → Nat
  | 0, _ => 0
  | fuel + 1, n => if n % 2 = 1 then 0 else 1 + trailingZerosAux fuel (n / 2)

/-- `usize::trailing_zeros` on the 64-bit targets the crate supports: the
number of trailing zero bits of a value `< 2^64`, with the full bit width
(64) returned for input `0`.  Scanning exactly 64 bit positions realizes
both behaviours. -/
def trailingZeros (n : Nat) : Nat := trailingZerosAux 64 n

/-- `sub_ref_check::<T, U>(byte_offset)` from
`src/omniglot/src/foreign_memory/mod.rs`.  The type parameters `T` and `U`
enter only through their sizes and alignments, which we pass explicitly.
`byte_offset.checked_add(size_of::<U>())` returning `None` (usize
overflow) is the first `return false` branch. -/
def sub_ref_check (sizeT alignT sizeU alignU byte_offset : Nat) : Bool :=
  if byte_offset + sizeU > USIZE_MAX then false
  else if byte_offset + sizeU > sizeT then false
  else if alignU > 1 <<< trailingZeros (alignT ||| byte_offset) then false
  else true

/-- Model of an `OGRef<'alloc, ID, T>` / `OGMutRef` value: the address of
its pointee and the `ID` imprint it carries.  (The `'alloc` lifetime and
the pointee type are compile-time-only and enter operations through the
explicit size/alignment arguments.) -/
structure OGRefM where
  addr : Nat
  imprint : Nat
deriving DecidableEq, Repr

/-- `OGRef::sub_ref::<U>(byte_offset)`
(`src/omniglot/src/foreign_memory/og_ref.rs`): run `sub_ref_check` and on
success return the sub-reference produced by `sub_ref_unchecked`
(`byte_add(byte_offset)`, same imprint). -/
def sub_ref (sizeT alignT sizeU alignU : Nat) (r : OGRefM) (byte_offset : Nat) :
    Option OGRefM :=
  if sub_ref_check sizeT alignT sizeU alignU byte_offset then
    some { addr := r.addr + byte_offset, imprint := r.imprint }
  else
    none

/-! ## Bit-pattern validation (`src/omniglot/src/bit_pattern_validate.rs`) -/

/-- `<bool as BitPatternValidate>::validate`: load the underlying byte as a
`u8` and check that it is `< 2`. -/
def boolValidate (byte : Nat) : Bool := byte < 2

/-- `MaybeUninit::<bool>::assume_init` on a byte known to be a legal
`bool` bit pattern: byte `1` is `true`, byte `0` is `false`. -/
def boolAssumeValid (byte : Nat) : Bool := byte ≠ 0

/-- An `OGCopy<bool>` is one owned byte of unvalidated memory.
`OGCopy::<bool>::from_bytes(src)` (via `MaybeValid::from_bytes`) asserts
`src.len() == size_of::<bool>() == 1` and copies the byte; the failed
assertion (a panic) is modelled by `none`. -/
def ogCopyBoolFromBytes (src : List Nat) : Option Nat :=
  if src.length = 1 then some (src.getD 0 0) else none

/-- `OGCopy::<bool>::validate` (`src/src/foreign_memory/og_copy.rs`,
`BitPatternValidate`-based implementation): with validation checks
enabled, run the `bool` byte predicate; `Ok(assume_init)` on success and
`Err(self)` — the copy returned unchanged — on failure. -/
def ogCopyBoolValidate (copy : Nat) : Except Nat Bool :=
  if DISABLE_VALIDATION_CHECKS then .ok (boolAssumeValid copy)
  else if boolValidate copy then .ok (boolAssumeValid copy)
  else .error copy

/-! ## The mock runtime's allocation chain (`src/src/rt/mock/mod.rs`) -/

/-- `MockRtAllocation`: one tracked stacked allocation. -/
structure MockRtAllocation where
  ptr : Nat
  len : Nat
  mutable : Bool
deriving DecidableEq, Repr

/-- `MockRtAllocation::matches(ptr, len, mutable)`: the queried byte range
`[ptr, ptr + len)` lies wholly within the record's range, and a mutable
query additionally requires the record to be mutable.
`ptr.checked_add(len)` returning `None` (usize overflow) makes the check
`false` via `unwrap_or(false)`. -/
def MockRtAllocation.matches (a : MockRtAllocation) (ptr len : Nat) (mutable : Bool) :
    Bool :=
  decide (a.ptr ≤ ptr) &&
    (decide (ptr + len ≤ USIZE_MAX) && decide (ptr + len ≤ a.ptr + a.len)) &&
    (!mutable || a.mutable)

/-- `MockRtAllocChain`: the singly-linked chain of allocation frames.  The
`Callback` frame's `MockRtCallbackDescriptor` payload (a type-erased host
function pointer plus context pointer) plays no role in chain walking and
is not modelled. -/
inductive MockRtAllocChain where
  | base (all_upgrades_valid : Bool)
  | allocation (alloc : MockRtAllocation) (pred : MockRtAllocChain)
  | callback (id : Nat) (pred : MockRtAllocChain)
  | cons (pred : MockRtAllocChain)
deriving DecidableEq, Repr

/-- `MockRtAllocChain::is_valid_int(ptr, len, mutable)`: walk the chain
from the head outward (`self.iter().any(..)`), accepting at the first
`Base(true)` or matching `Allocation` frame; `Callback` and `Cons` frames
never grant access. -/
def MockRtAllocChain.is_valid_int : MockRtAllocChain → Nat → Nat → Bool → Bool
  | .base all_upgrades_valid, _, _, _ => all_upgrades_valid
  | .allocation a pred, ptr, len, mutable =>
      a.matches ptr len mutable || pred.is_valid_int ptr len mutable
  | .callback _ pred, ptr, len, mutable => false || pred.is_valid_int ptr len mutable
  | .cons pred, ptr, len, mutable => false || pred.is_valid_int ptr len mutable

/-- `AllocTracker::is_valid` for `MockRtAllocChain`. -/
def MockRtAllocChain.is_valid (c : MockRtAllocChain) (ptr len : Nat) : Bool :=
  c.is_valid_int ptr len false

/-- `AllocTracker::is_valid_mut` for `MockRtAllocChain`. -/
def MockRtAllocChain.is_valid_mut (c : MockRtAllocChain) (ptr len : Nat) : Bool :=
  c.is_valid_int ptr len true

/-- `MockRtAllocChain::next_callback_id`: walk the chain from the head
outward and return one more than the id of the first `Callback` frame
found (`find_map` short-circuits there), or `0` if there is none. -/
def MockRtAllocChain.next_callback_id : MockRtAllocChain → Nat
  | .base _ => 0
  | .allocation _ pred => pred.next_callback_id
  | .callback id _ => id + 1
  | .cons pred => pred.next_callback_id

/-- The flattened frame list of a chain, head first: the order in which
`MockRtAllocChainIter` yields frames. -/
inductive MockRtFrame where
  | base (all_upgrades_valid : Bool)
  | allocation (alloc : MockRtAllocation)
  | callback (id : Nat)
  | cons
deriving DecidableEq, Repr

/-- Frames of a chain in iteration order (head toward base). -/
def MockRtAllocChain.frames : MockRtAllocChain → List MockRtFrame
  | .base b => [.base b]
  | .allocation a pred => .allocation a :: pred.frames
  | .callback id pred => .callback id :: pred.frames
  | .cons pred => .cons :: pred.frames

/-- Whether a single frame grants the queried access: a `Base(true)`
frame, or an `Allocation` record that `matches`. -/
def MockRtFrame.grants (f : MockRtFrame) (ptr len : Nat) (mutable : Bool) : Bool :=
  match f with
  | .base b => b
  | .allocation a => a.matches ptr len mutable
  | .callback _ => false
  | .cons => false

/-- Number of callback trampoline slots:
`MockRtCallbackTrampolinePool::CALLBACKS` is a `[CallbackTrampolineFn; 512]`. -/
def MOCK_RT_CALLBACK_SLOTS : Nat := 512

/-- Possible outcomes of `MockRt::setup_callback_int`. -/
inductive SetupCallbackResult where
  /-- Registration succeeded: the trampoline for `callback_id` was handed
  to the inner closure together with an `AllocScope` over `inner_chain`. -/
  | ok (callback_id : Nat) (inner_chain : MockRtAllocChain)
  /-- `Err(OGError::IDMismatch)` was returned. -/
  | err_id_mismatch
  /-- The indexing expression
  `MockRtCallbackTrampolinePool::<ID>::CALLBACKS[callback_id]` panicked
  because `callback_id` is out of bounds for the 512-entry array. -/
  | panic_index_out_of_bounds (callback_id : Nat)
deriving DecidableEq, Repr

/-- `MockRt::setup_callback_int` (`src/src/rt/mock/mod.rs`), restricted to
the steps that decide its outcome: the runtime/scope imprint comparison,
`next_callback_id` on the scope's tracker, construction of the nested
`Callback` chain frame, and the unchecked index into the 512-entry
trampoline pool.  There is no range check on `callback_id` before the
array indexing, and `OGError::SetupCallbackInsufficientSlots` is never
constructed anywhere in the crate. -/
def setup_callback_int (rt_imprint scope_imprint : Nat) (chain : MockRtAllocChain) :
    SetupCallbackResult :=
  if rt_imprint ≠ scope_imprint then .err_id_mismatch
  else
    let callback_id := chain.next_callback_id
    let inner_chain := MockRtAllocChain.callback callback_id chain
    if callback_id < MOCK_RT_CALLBACK_SLOTS then .ok callback_id inner_chain
    else .panic_index_out_of_bounds callback_id

/-- The allocation chain after `n` nested, successful callback
registrations on top of a bare `Base(false)` chain: registration `k`
pushes `Callback(k, _)` onto the chain. -/
def nestedCallbackChain : Nat → MockRtAllocChain
  | 0 => .base false
  | n + 1 => .callback n (nestedCallbackChain n)

/-! ## Stacked slice allocation (`src/src/rt/mod.rs`, `src/src/rt/mock/mod.rs`) -/

/-- A `core::alloc::Layout`: byte size and power-of-two alignment. -/
structure Layout where
  size : Nat
  align : Nat
deriving DecidableEq, Repr

/-- `core::alloc::Layout::array::<T>(n)` (Rust standard library, external
to the crate): fails iff the element size is nonzero and the total array
size `size_of::<T>() * n` would exceed `isize::MAX` rounded down for the
alignment, i.e. iff `n > (isize::MAX - (align - 1)) / element_size`. -/
def layoutArray (elem_size elem_align n : Nat) : Option Layout :=
  if elem_size ≠ 0 ∧ n > (ISIZE_MAX - (elem_align - 1)) / elem_size then none
  else some { size := elem_size * n, align := elem_align }

/-- Possible outcomes of `OGRuntime::allocate_stacked_slice_mut` on the
mock runtime. -/
inductive AllocSliceResult where
  /-- The closure ran with an `OGMutSlice` over the fresh allocation and
  an `AllocScope` over `inner_chain`. -/
  | ok (inner_chain : MockRtAllocChain)
  /-- `Err(OGError::IDMismatch)`. -/
  | err_id_mismatch
  /-- `Err(OGError::AllocInvalidLayout)` (the mock allocator rejected the
  layout). -/
  | err_alloc_invalid_layout
  /-- The expression `core::alloc::Layout::array::<T>(len).unwrap()` in
  `allocate_stacked_slice_mut` panicked on an invalid array layout. -/
  | panic_layout_unwrap
deriving DecidableEq, Repr

/-- `OGRuntime::allocate_stacked_slice_mut::<T>(len, ..)` as executed by
`MockRt` (`src/src/rt/mod.rs:208` composed with
`MockRt::allocate_stacked_mut` and `allocate_stacked_untracked_mut`,
`src/src/rt/mock/mod.rs`):

1. `Layout::array::<T>(len).unwrap()` — evaluated first, panics on an
   invalid layout before any other step runs;
2. `allocate_stacked_mut`: imprint comparison, `Err(IDMismatch)` on
   mismatch;
3. the backing `MockRtAllocator::with_alloc`, abstracted by
   `allocator_rejects` (its `Err(InvalidLayout)` is mapped to
   `Err(OGError::AllocInvalidLayout)`) and `alloc_ptr` (the address it
   provides on success);
4. on success, the closure runs under a new `Allocation` frame covering
   `layout.size()` bytes at the provided address, marked mutable. -/
def allocate_stacked_slice_mut (rt_imprint scope_imprint : Nat)
    (elem_size elem_align len : Nat) (chain : MockRtAllocChain)
    (allocator_rejects : Layout → Bool) (alloc_ptr : Nat) : AllocSliceResult :=
  match layoutArray elem_size elem_align len with
  | none => .panic_layout_unwrap
  | some layout =>
    if rt_imprint ≠ scope_imprint then .err_id_mismatch
    else if allocator_rejects layout then .err_alloc_invalid_layout
    else
      .ok (.allocation { ptr := alloc_ptr, len := layout.size, mutable := true } chain)

/-! ## Foreign memory and the reference family
(`src/omniglot/src/foreign_memory/`) -/

/-- Foreign memory: a byte (or, for slice element operations, element)
value at every address. -/
def Mem : Type := Nat → Nat

/-- Read `n` consecutive bytes starting at `addr`. -/
def readBytes (mem : Mem) (addr n : Nat) : List Nat :=
  (List.range n).map (fun i => mem (addr + i))

/-- Store the byte list `bs` at consecutive addresses starting at `addr`,
leaving all other addresses unchanged. -/
def writeBytes (mem : Mem) (addr : Nat) (bs : List Nat) : Mem :=
  fun a => if addr ≤ a ∧ a < addr + bs.length then bs.getD (a - addr) 0 else mem a

/-- Little-endian encoding of value `v` into `k` bytes: how a `k`-byte
fixed-width unsigned integer is laid out in memory on the little-endian
targets the crate supports. -/
def encodeLE : Nat → Nat → List Nat
  | 0, _ => []
  | k + 1, v => v % 256 :: encodeLE k (v / 256)

/-- Little-endian decoding of a byte list back into a value. -/
def decodeLE : List Nat → Nat
  | [] => 0
  | b :: bs => b + 256 * decodeLE bs

/-- Result of an operation on the reference family that first checks the
reference's stored imprint against the presented scope's imprint:
`panic_id_mismatch a b` models the `panic!("ID mismatch: {:?} vs. {:?}!",
a, b)` of `check_scopes_imprint_panic`
(`src/omniglot/src/foreign_memory/mod.rs`), with the two mismatched
imprints it reports. -/
inductive OpResult (α : Type) where
  | ok (val : α)
  | panic_id_mismatch (ref_imprint scope_imprint : Nat)
deriving Repr

/-- `check_access_scope_imprint` (`src/omniglot/src/foreign_memory/mod.rs`):
`none` means the check passed, `some (a, b)` that
`check_scopes_imprint_panic(a, b)` aborted with both imprints. -/
def check_access_scope_imprint (ref_imprint scope_imprint : Nat) :
    Option (Nat × Nat) :=
  if ref_imprint ≠ scope_imprint then some (ref_imprint, scope_imprint) else none

/-- `OGRef::assume_valid` for a `k`-byte little-endian integer type: check
the access scope's imprint, then reinterpret the pointee's current bytes
as a `T`. -/
def ogRef_assume_valid (k : Nat) (r : OGRefM) (scope_imprint : Nat) (mem : Mem) :
    OpResult Nat :=
  match check_access_scope_imprint r.imprint scope_imprint with
  | some (a, b) => .panic_id_mismatch a b
  | none => .ok (decodeLE (readBytes mem r.addr k))

/-- `OGRef::valid` (for `FromBytes` types): delegates to `assume_valid`,
which performs the imprint check (`src/omniglot/src/foreign_memory/og_ref.rs`). -/
def ogRef_valid (k : Nat) (r : OGRefM) (scope_imprint : Nat) (mem : Mem) :
    OpResult Nat :=
  ogRef_assume_valid k r scope_imprint mem

/-- `OGRef::validate` for pointee type `bool`: check the access scope's
imprint, then run the `bool` byte predicate on the pointee's current
byte; `some` is the validated `OGVal`'s dereferenced value, `none` the
validation failure. -/
def ogRef_validate_bool (r : OGRefM) (scope_imprint : Nat) (mem : Mem) :
    OpResult (Option Bool) :=
  match check_access_scope_imprint r.imprint scope_imprint with
  | some (a, b) => .panic_id_mismatch a b
  | none =>
    if DISABLE_VALIDATION_CHECKS then .ok (some (boolAssumeValid (mem r.addr)))
    else if boolValidate (mem r.addr) then .ok (some (boolAssumeValid (mem r.addr)))
    else .ok none

/-- `OGRef::copy` for a `k`-byte pointee: check the access scope's
imprint, then byte-wise copy the pointee into an owned `OGCopy`
(`src/omniglot/src/foreign_memory/og_ref.rs`). -/
def ogRef_copy (k : Nat) (r : OGRefM) (scope_imprint : Nat) (mem : Mem) :
    OpResult (List Nat) :=
  match check_access_scope_imprint r.imprint scope_imprint with
  | some (a, b) => .panic_id_mismatch a b
  | none => .ok (readBytes mem r.addr k)

/-- `OGCopy::update_from_ref` (`src/src/foreign_memory/og_copy.rs`):
compare the reference's imprint with the access scope's, panicking with
both on mismatch, then overwrite the copy's bytes with the pointee's
bytes.  The returned value is the copy's new byte contents. -/
def ogCopy_update_from_ref (k : Nat) (_copy : List Nat) (r : OGRefM)
    (scope_imprint : Nat) (mem : Mem) : OpResult (List Nat) :=
  if r.imprint ≠ scope_imprint then .panic_id_mismatch r.imprint scope_imprint
  else .ok (readBytes mem r.addr k)

/-- `OGMutRef::write(val, access_scope)` for a `k`-byte little-endian
integer type (`src/omniglot/src/foreign_memory/og_mut_ref.rs`): check the
access scope's imprint, store `val` into the pointee, then hand back the
`assume_valid` view of the newly written memory.  `ok (mem, v)` carries
the updated memory and the returned `OGVal`'s dereferenced value. -/
def ogMutRef_write (k : Nat) (r : OGRefM) (val : Nat) (scope_imprint : Nat)
    (mem : Mem) : OpResult (Mem × Nat) :=
  match check_access_scope_imprint r.imprint scope_imprint with
  | some (a, b) => .panic_id_mismatch a b
  | none =>
    let mem' := writeBytes mem r.addr (encodeLE k val)
    match ogRef_assume_valid k r scope_imprint mem' with
    | .panic_id_mismatch a b => .panic_id_mismatch a b
    | .ok v => .ok (mem', v)

/-! ## Reference upgrades (`og_ref.rs`, `og_mut_ref.rs`, `og_mut_slice.rs`) -/

/-- Model of an `OGMutSlice` / `OGSlice`: base address, host-held element
count, and the carried imprint. -/
structure OGSliceM where
  addr : Nat
  length : Nat
  imprint : Nat
deriving DecidableEq, Repr

/-- `OGRef::upgrade_from_ptr(ptr, alloc_scope)`: with upgrade checks
enabled, accept iff the pointer is aligned for `T` and the scope's
tracker reports `is_valid(ptr, size_of::<T>())`; the tracker predicate is
passed as `is_valid`.  The memory argument records that the upgrade never
inspects foreign memory: the result cannot depend on it. -/
def ogRef_upgrade_from_ptr (sizeT alignT ptr : Nat) (is_valid : Nat → Nat → Bool)
    (scope_imprint : Nat) (_mem : Mem) : Option OGRefM :=
  if DISABLE_UPGRADE_CHECKS then some { addr := ptr, imprint := scope_imprint }
  else if ptr % alignT = 0 ∧ is_valid ptr sizeT then
    some { addr := ptr, imprint := scope_imprint }
  else none

/-- `OGMutRef::upgrade_from_ptr(ptr, alloc_scope)`: as for `OGRef`, with
`is_valid_mut` in place of `is_valid`. -/
def ogMutRef_upgrade_from_ptr (sizeT alignT ptr : Nat)
    (is_valid_mut : Nat → Nat → Bool) (scope_imprint : Nat) (_mem : Mem) :
    Option OGRefM :=
  if DISABLE_UPGRADE_CHECKS then some { addr := ptr, imprint := scope_imprint }
  else if ptr % alignT = 0 ∧ is_valid_mut ptr sizeT then
    some { addr := ptr, imprint := scope_imprint }
  else none

/-- `OGMutSlice::upgrade_from_ptr(ptr, length, alloc_scope)`: accept iff
the pointer is aligned for `T` and the tracker reports
`is_valid_mut(ptr, length * size_of::<T>())`. -/
def ogMutSlice_upgrade_from_ptr (sizeT alignT ptr length : Nat)
    (is_valid_mut : Nat → Nat → Bool) (scope_imprint : Nat) (_mem : Mem) :
    Option OGSliceM :=
  if DISABLE_UPGRADE_CHECKS then
    some { addr := ptr, length := length, imprint := scope_imprint }
  else if ptr % alignT = 0 ∧ is_valid_mut ptr (length * sizeT) then
    some { addr := ptr, length := length, imprint := scope_imprint }
  else none

/-! ## Slice writes (`src/omniglot/src/foreign_memory/og_mut_slice.rs`)

For the element-wise slice operations we use `Mem` at element
granularity: address `slice.addr + i` holds the `i`-th element of the
slice. -/

/-- Store one element. -/
def updateMem (mem : Mem) (a v : Nat) : Mem :=
  fun x => if x = a then v else mem x

/-- Read the `n` slice elements starting at `addr`: the dereferenced
contents of an `OGVal<[T]>` over the slice. -/
def readSeq (mem : Mem) (addr n : Nat) : List Nat :=
  (List.range n).map (fun i => mem (addr + i))

/-- The loop `self.reference.iter().zip(src).for_each(|(dst, val)| {
dst.write(val); count += 1 })` of `OGMutSlice::write_from_iter`: write
elements in order into slots `addr, addr+1, ...` until either the `n`
slots or the iterator `src` is exhausted, returning the final memory and
the `count` of elements written. -/
def writeZipLoop (mem : Mem) (addr : Nat) : Nat → List Nat → Mem × Nat
  | 0, _ => (mem, 0)
  | _ + 1, [] => (mem, 0)
  | n + 1, v :: rest =>
    let (mem', count) := writeZipLoop (updateMem mem addr v) (addr + 1) n rest
    (mem', count + 1)

/-- Result of `OGMutSlice::write_from_iter` / `copy_from_slice`. -/
inductive WriteSliceResult where
  /-- The returned validated `OGVal<[T]>`: `mem` is the memory after the
  writes and `vals` the value's dereferenced slice contents. -/
  | ok (mem : Mem) (vals : List Nat)
  /-- `assert!(count == self.len())` failed; `mem` is the memory at the
  panic, retaining every element written before it. -/
  | panic_assert (mem : Mem)
  /-- An imprint check failed, aborting with both imprints. -/
  | panic_id_mismatch (ref_imprint scope_imprint : Nat)

/-- `OGMutSlice::write_from_iter(src, access_scope)`: check the access
scope's imprint, zip-write the iterator into the slice counting the
writes, `assert!(count == self.len())`, then return the `assume_valid`
view of the slice. -/
def ogMutSlice_write_from_iter (s : OGSliceM) (src : List Nat)
    (scope_imprint : Nat) (mem : Mem) : WriteSliceResult :=
  if s.imprint ≠ scope_imprint then .panic_id_mismatch s.imprint scope_imprint
  else
    let (mem', count) := writeZipLoop mem s.addr s.length src
    if count = s.length then .ok mem' (readSeq mem' s.addr s.length)
    else .panic_assert mem'

/-- The loop `self.iter().zip(src.iter()).for_each(|(dst, src)| {
dst.write_ref(src, access_scope); count += 1 })` of
`OGMutSlice::copy_from_slice`: like `writeZipLoop`, but every element
write goes through `OGMutRef::write_ref`, which checks the access scope's
imprint before writing. -/
def copyZipLoop (ref_imprint scope_imprint : Nat) (mem : Mem) (addr : Nat) :
    Nat → List Nat → OpResult (Mem × Nat)
  | 0, _ => .ok (mem, 0)
  | _ + 1, [] => .ok (mem, 0)
  | n + 1, v :: rest =>
    if ref_imprint ≠ scope_imprint then
      .panic_id_mismatch ref_imprint scope_imprint
    else
      match copyZipLoop ref_imprint scope_imprint (updateMem mem addr v) (addr + 1)
          n rest with
      | .ok (mem', count) => .ok (mem', count + 1)
      | .panic_id_mismatch a b => .panic_id_mismatch a b

/-- `OGMutSlice::copy_from_slice(src, access_scope)`: per-element
`write_ref` (each checking the imprint), `assert!(count == self.len())`,
then the `assume_valid` view of the slice. -/
def ogMutSlice_copy_from_slice (s : OGSliceM) (src : List Nat)
    (scope_imprint : Nat) (mem : Mem) : WriteSliceResult :=
  match copyZipLoop s.imprint scope_imprint mem s.addr s.length src with
  | .panic_id_mismatch a b => .panic_id_mismatch a b
  | .ok (mem', count) =>
    if count = s.length then .ok mem' (readSeq mem' s.addr s.length)
    else .panic_assert mem'

/-! ## Identity and branding (`src/omniglot/src/id/`) -/

/-- `OGRuntimeBranding`: a counter-branded instance ID. -/
structure OGRuntimeBranding where
  id : Nat
deriving DecidableEq, Repr

/-- `OGRuntimeBrandingImprint`: the copyable, comparable imprint. -/
structure OGRuntimeBrandingImprint where
  id : Nat
deriving DecidableEq, Repr

/-- `OGRuntimeBranding::get_imprint`. -/
def OGRuntimeBranding.get_imprint (b : OGRuntimeBranding) : OGRuntimeBrandingImprint :=
  { id := b.id }

/-- `OGRuntimeBranding::new()`, made explicit over the global
`OG_RUNTIME_BRANDING_CTR` state: `fetch_update(|prev| prev.checked_add(1))`
returns the previous counter value as the new instance's id and stores
its successor; when the counter has reached `u64::MAX` the `checked_add`
yields `None` and the `.expect(..)` panics, modelled by `none`. -/
def OGRuntimeBranding.new (ctr : Nat) : Option (OGRuntimeBranding × Nat) :=
  if ctr + 1 ≤ U64_MAX then some ({ id := ctr }, ctr + 1) else none

/-- `PartialEq` on `OGLifetimeBrandingImprint`
(`src/omniglot/src/id/lifetime.rs`): the imprint is a zero-sized type and
comparison is unconditionally `true` (uniqueness is enforced by the
invariant lifetime at the type level). -/
def ogLifetimeBrandingImprintEq (_a _b : Unit) : Bool := true

/-- The all-zero memory, used to instantiate theorems at concrete inputs. -/
def memZero : Mem := fun _ => 0

/-- `iterateSetup imprint n chain`: perform `n` nested
`setup_callback_int` registrations (each running the next registration
inside the previous one's closure, against the narrowed inner scope);
`none` if any of them fails to return `Ok`. -/
def iterateSetup (imprint : Nat) : Nat → MockRtAllocChain → Option MockRtAllocChain
  | 0, chain => some chain
  | n + 1, chain =>
    match setup_callback_int imprint imprint chain with
    | .ok _ inner_chain => iterateSetup imprint n inner_chain
    | _ => none

/-! ## Theorems -/

lemma next_callback_id_nested (n : Nat) :
    (nestedCallbackChain n).next_callback_id = n := by
  cases n <;> rfl

lemma setup_callback_int_nested_ok (imprint n : Nat) (h : n < 512) :
    setup_callback_int imprint imprint (nestedCallbackChain n) =
      .ok n (nestedCallbackChain (n + 1)) := by
  simp [setup_callback_int, next_callback_id_nested, MOCK_RT_CALLBACK_SLOTS, h,
    nestedCallbackChain]

lemma iterateSetup_nested (imprint m : Nat) :
    ∀ n, n + m ≤ 512 →
      iterateSetup imprint m (nestedCallbackChain n) =
        some (nestedCallbackChain (n + m)) := by
  induction m with
  | zero => intro n _; simp [iterateSetup]
  | succ m ih =>
    intro n h
    rw [iterateSetup, setup_callback_int_nested_ok imprint n (by omega)]
    have hstep := ih (n + 1) (by omega)
    have harith : n + 1 + m = n + (m + 1) := by omega
    rw [harith] at hstep
    exact hstep

/-- C1.  The claim fails on the code: after 512 nested callback
registrations (which all succeed, with in-range callback ids 0..511,
reaching the chain `nestedCallbackChain 512`), the 513th registration
does not return `Err(OGError::SetupCallbackInsufficientSlots)` — that
variant is never constructed anywhere in the crate — but aborts by
indexing the 512-entry trampoline array
`MockRtCallbackTrampolinePool::CALLBACKS` out of bounds at index 512. -/
theorem setup_callback_exhaustion_aborts_instead_of_error :
    iterateSetup 0 512 (MockRtAllocChain.base false) =
      some (nestedCallbackChain 512) ∧
    setup_callback_int 0 0 (nestedCallbackChain 512) =
      .panic_index_out_of_bounds 512 := by
  constructor
  · have hiter := iterateSetup_nested 0 512 0 (by omega)
    have hbase : nestedCallbackChain 0 = .base false := rfl
    rw [hbase, Nat.zero_add] at hiter
    exact hiter
  · simp [setup_callback_int, next_callback_id_nested, MOCK_RT_CALLBACK_SLOTS]

/-- C2.  The claim fails on the code: for `T = u16` (size 2, align 2) and
`len = 2^63`, the array layout is invalid (`2 * len` overflows `isize`),
and `allocate_stacked_slice_mut` panics in
`core::alloc::Layout::array::<T>(len).unwrap()` instead of returning
`Err(OGError::AllocInvalidLayout)` — the panic happens before the imprint
check and before the mock allocator is ever consulted. -/
theorem allocate_stacked_slice_mut_invalid_layout_panics :
    allocate_stacked_slice_mut 0 0 2 2 (2 ^ 63) (.base false) (fun _ => false) 0 =
      .panic_layout_unwrap := by
  have harr : layoutArray 2 2 (2 ^ 63) = none := by
    rw [layoutArray, if_pos]
    refine ⟨by omega, ?_⟩
    rw [ISIZE_MAX]
    omega
  rw [allocate_stacked_slice_mut, harr]

/-- C3.  Every privileged operation of the reference family (`validate`,
`valid`, `assume_valid`, `copy`, `write`, `update_from_ref`), when
presented a scope whose imprint `b` differs from the imprint `a` stored
in the reference or copy, aborts via `check_scopes_imprint_panic` with a
diagnostic carrying both mismatched imprints, and never returns an `ok`
value. -/
theorem imprint_mismatch_operations_panic (a b k addr val : Nat)
    (copy : List Nat) (mem : Mem) (h : a ≠ b) :
    ogRef_validate_bool ⟨addr, a⟩ b mem = .panic_id_mismatch a b ∧
    ogRef_valid k ⟨addr, a⟩ b mem = .panic_id_mismatch a b ∧
    ogRef_assume_valid k ⟨addr, a⟩ b mem = .panic_id_mismatch a b ∧
    ogRef_copy k ⟨addr, a⟩ b mem = .panic_id_mismatch a b ∧
    ogMutRef_write k ⟨addr, a⟩ val b mem = .panic_id_mismatch a b ∧
    ogCopy_update_from_ref k copy ⟨addr, a⟩ b mem = .panic_id_mismatch a b := by
  refine ⟨?_, ?_, ?_, ?_, ?_, ?_⟩ <;>
    simp [ogRef_validate_bool, ogRef_valid, ogRef_assume_valid, ogRef_copy,
      ogMutRef_write, ogCopy_update_from_ref, check_access_scope_imprint, h]

/-- Witness for C3 at imprints `0 ≠ 1`. -/
theorem imprint_mismatch_operations_panic_witness :
    (0 : Nat) ≠ 1 ∧
    ogRef_validate_bool ⟨4, 0⟩ 1 memZero = .panic_id_mismatch 0 1 ∧
    ogRef_valid 4 ⟨4, 0⟩ 1 memZero = .panic_id_mismatch 0 1 ∧
    ogRef_assume_valid 4 ⟨4, 0⟩ 1 memZero = .panic_id_mismatch 0 1 ∧
    ogRef_copy 4 ⟨4, 0⟩ 1 memZero = .panic_id_mismatch 0 1 ∧
    ogMutRef_write 4 ⟨4, 0⟩ 42 1 memZero = .panic_id_mismatch 0 1 ∧
    ogCopy_update_from_ref 4 [0, 0, 0, 0] ⟨4, 0⟩ 1 memZero =
      .panic_id_mismatch 0 1 :=
  ⟨by decide, imprint_mismatch_operations_panic 0 1 4 4 42 [0, 0, 0, 0] memZero
    (by decide)⟩

/-- C7.  Validating an `OGCopy<bool>` built (via `from_bytes`) from a
single byte `b` succeeds exactly for `b = 0` (yielding `false`) and
`b = 1` (yielding `true`); for every `b` in `2..=255` it returns
`Err` carrying the original copy with its byte unchanged. -/
theorem copy_bool_validate_boundary (b : Nat) (hb : b < 256) :
    ogCopyBoolFromBytes [b] = some b ∧
    ((∃ v, ogCopyBoolValidate b = .ok v) ↔ b = 0 ∨ b = 1) ∧
    (b = 0 → ogCopyBoolValidate b = .ok false) ∧
    (b = 1 → ogCopyBoolValidate b = .ok true) ∧
    (2 ≤ b → ogCopyBoolValidate b = .error b) := by
  refine ⟨rfl, ?_, ?_, ?_, ?_⟩
  · constructor
    · rintro ⟨v, hv⟩
      by_contra hcon
      have h2 : ¬ boolValidate b := by
        simp only [boolValidate, decide_eq_true_eq]
        omega
      simp [ogCopyBoolValidate, DISABLE_VALIDATION_CHECKS, h2] at hv
    · rintro (rfl | rfl) <;> exact ⟨_, rfl⟩
  · rintro rfl; rfl
  · rintro rfl; rfl
  · intro h2
    have hval : ¬ boolValidate b := by
      simp only [boolValidate, decide_eq_true_eq]
      omega
    simp [ogCopyBoolValidate, DISABLE_VALIDATION_CHECKS, hval]

/-- Witness for C7 at bytes `1` and `2`. -/
theorem copy_bool_validate_boundary_witness :
    (1 : Nat) < 256 ∧ (2 : Nat) < 256 ∧
    ogCopyBoolValidate 1 = .ok true ∧ ogCopyBoolValidate 2 = .error 2 :=
  ⟨by decide, by decide, (copy_bool_validate_boundary 1 (by decide)).2.2.2.1 rfl,
    (copy_bool_validate_boundary 2 (by decide)).2.2.2.2 (by decide)⟩

/-- C9.  Imprints from one ID instance always compare equal (trivially
for the counter-branded imprint, which is a pure projection of the
instance; unconditionally for the lifetime-branded imprint, whose `eq` is
constant `true`); and two counter-branded instances created at distinct
states of the monotonically increasing global counter carry unequal
imprints, successive creations drawing strictly larger values. -/
theorem imprint_reflexive_and_counter_distinct :
    (∀ br : OGRuntimeBranding, br.get_imprint = br.get_imprint) ∧
    (∀ u v : Unit, ogLifetimeBrandingImprintEq u v = true) ∧
    (∀ c b s, OGRuntimeBranding.new c = some (b, s) →
      b.get_imprint.id = c ∧ s = c + 1) ∧
    (∀ c1 c2 b1 b2 s1 s2, c1 ≠ c2 →
      OGRuntimeBranding.new c1 = some (b1, s1) →
      OGRuntimeBranding.new c2 = some (b2, s2) →
      b1.get_imprint ≠ b2.get_imprint) ∧
    (∀ c b1 s1 b2 s2,
      OGRuntimeBranding.new c = some (b1, s1) →
      OGRuntimeBranding.new s1 = some (b2, s2) →
      b1.get_imprint.id < b2.get_imprint.id) := by
  refine ⟨fun _ => rfl, fun _ _ => rfl, ?_, ?_, ?_⟩
  · intro c b s h
    rw [OGRuntimeBranding.new] at h
    split at h
    · cases h; exact ⟨rfl, rfl⟩
    · cases h
  · intro c1 c2 b1 b2 s1 s2 hne h1 h2
    rw [OGRuntimeBranding.new] at h1 h2
    split at h1
    · cases h1
      split at h2
      · cases h2
        simp [OGRuntimeBranding.get_imprint, OGRuntimeBrandingImprint.mk.injEq]
        exact hne
      · cases h2
    · cases h1
  · intro c b1 s1 b2 s2 h1 h2
    rw [OGRuntimeBranding.new] at h1 h2
    split at h1
    · cases h1
      split at h2
      · cases h2
        simp [OGRuntimeBranding.get_imprint]
      · cases h2
    · cases h1

/-- Witness for C9: instances created at counter states `0` and `1`. -/
theorem imprint_counter_distinct_witness :
    OGRuntimeBranding.new 0 = some (⟨0⟩, 1) ∧
    OGRuntimeBranding.new 1 = some (⟨1⟩, 2) ∧
    (OGRuntimeBranding.mk 0).get_imprint ≠ (OGRuntimeBranding.mk 1).get_imprint :=
  ⟨by decide, by decide,
    imprint_reflexive_and_counter_distinct.2.2.2.1 0 1 ⟨0⟩ ⟨1⟩ 1 2 (by decide)
      (by decide) (by decide)⟩

/-- C4.  `upgrade_from_ptr` succeeds if and only if the pointer is
aligned for `T` and the scope's tracker accepts the queried byte range
(`size_of::<T>()` for single references via `is_valid` resp.
`is_valid_mut`, `len * size_of::<T>()` for mutable slices via
`is_valid_mut`); on success the constructed reference carries the
`AllocScope`'s imprint; and the outcome never depends on the contents of
foreign memory (no bytes are read during the upgrade). -/
theorem upgrade_from_ptr_characterization (sizeT alignT ptr length scope_imprint : Nat)
    (is_valid is_valid_mut : Nat → Nat → Bool) (mem mem' : Mem)
    (_hlen : length * sizeT ≤ USIZE_MAX) :
    ((∃ r, ogRef_upgrade_from_ptr sizeT alignT ptr is_valid scope_imprint mem = some r)
      ↔ ptr % alignT = 0 ∧ is_valid ptr sizeT = true) ∧
    (∀ r, ogRef_upgrade_from_ptr sizeT alignT ptr is_valid scope_imprint mem = some r →
      r.imprint = scope_imprint ∧ r.addr = ptr) ∧
    ogRef_upgrade_from_ptr sizeT alignT ptr is_valid scope_imprint mem =
      ogRef_upgrade_from_ptr sizeT alignT ptr is_valid scope_imprint mem' ∧
    ((∃ r, ogMutRef_upgrade_from_ptr sizeT alignT ptr is_valid_mut scope_imprint mem
        = some r)
      ↔ ptr % alignT = 0 ∧ is_valid_mut ptr sizeT = true) ∧
    (∀ r, ogMutRef_upgrade_from_ptr sizeT alignT ptr is_valid_mut scope_imprint mem
        = some r →
      r.imprint = scope_imprint ∧ r.addr = ptr) ∧
    ogMutRef_upgrade_from_ptr sizeT alignT ptr is_valid_mut scope_imprint mem =
      ogMutRef_upgrade_from_ptr sizeT alignT ptr is_valid_mut scope_imprint mem' ∧
    ((∃ s, ogMutSlice_upgrade_from_ptr sizeT alignT ptr length is_valid_mut
        scope_imprint mem = some s)
      ↔ ptr % alignT = 0 ∧ is_valid_mut ptr (length * sizeT) = true) ∧
    (∀ s, ogMutSlice_upgrade_from_ptr sizeT alignT ptr length is_valid_mut
        scope_imprint mem = some s →
      s.imprint = scope_imprint ∧ s.addr = ptr ∧ s.length = length) ∧
    ogMutSlice_upgrade_from_ptr sizeT alignT ptr length is_valid_mut scope_imprint mem
      = ogMutSlice_upgrade_from_ptr sizeT alignT ptr length is_valid_mut scope_imprint
          mem' := by
  refine ⟨?_, ?_, rfl, ?_, ?_, rfl, ?_, ?_, rfl⟩
  · rw [ogRef_upgrade_from_ptr]
    simp only [DISABLE_UPGRADE_CHECKS, Bool.false_eq_true, if_false]
    split
    · rename_i hcond
      simp [hcond]
    · rename_i hcond
      simpa using hcond
  · intro r hr
    rw [ogRef_upgrade_from_ptr] at hr
    simp only [DISABLE_UPGRADE_CHECKS, Bool.false_eq_true, if_false] at hr
    split at hr
    · cases hr; exact ⟨rfl, rfl⟩
    · cases hr
  · rw [ogMutRef_upgrade_from_ptr]
    simp only [DISABLE_UPGRADE_CHECKS, Bool.false_eq_true, if_false]
    split
    · rename_i hcond
      simp [hcond]
    · rename_i hcond
      simpa using hcond
  · intro r hr
    rw [ogMutRef_upgrade_from_ptr] at hr
    simp only [DISABLE_UPGRADE_CHECKS, Bool.false_eq_true, if_false] at hr
    split at hr
    · cases hr; exact ⟨rfl, rfl⟩
    · cases hr
  · rw [ogMutSlice_upgrade_from_ptr]
    simp only [DISABLE_UPGRADE_CHECKS, Bool.false_eq_true, if_false]
    split
    · rename_i hcond
      simp [hcond]
    · rename_i hcond
      simpa using hcond
  · intro s hs
    rw [ogMutSlice_upgrade_from_ptr] at hs
    simp only [DISABLE_UPGRADE_CHECKS, Bool.false_eq_true, if_false] at hs
    split at hs
    · cases hs; exact ⟨rfl, rfl, rfl⟩
    · cases hs

/-- Witness for C4: a 4-byte, 4-aligned `T` at the aligned pointer `8`,
with an always-accepting tracker and two distinct memories. -/
theorem upgrade_from_ptr_characterization_witness :
    (2 : Nat) * 4 ≤ USIZE_MAX ∧
    ((∃ r, ogRef_upgrade_from_ptr 4 4 8 (fun _ _ => true) 9 memZero = some r)
      ↔ 8 % 4 = 0 ∧ (fun (_ _ : Nat) => true) 8 4 = true) :=
  ⟨by rw [USIZE_MAX]; omega,
    (upgrade_from_ptr_characterization 4 4 8 2 9 (fun _ _ => true) (fun _ _ => true)
      memZero (fun _ => 1) (by rw [USIZE_MAX]; omega)).1⟩

lemma is_valid_int_iff_exists_frame (c : MockRtAllocChain) (ptr len : Nat)
    (mutable : Bool) :
    c.is_valid_int ptr len mutable = true ↔
      ∃ f ∈ c.frames, f.grants ptr len mutable = true := by
  induction c with
  | base b =>
    simp [MockRtAllocChain.is_valid_int, MockRtAllocChain.frames, MockRtFrame.grants]
  | allocation a pred ih =>
    simp [MockRtAllocChain.is_valid_int, MockRtAllocChain.frames,
      MockRtFrame.grants, ih]
  | callback id pred ih =>
    simp [MockRtAllocChain.is_valid_int, MockRtAllocChain.frames,
      MockRtFrame.grants, ih]
  | cons pred ih =>
    simp [MockRtAllocChain.is_valid_int, MockRtAllocChain.frames,
      MockRtFrame.grants, ih]

/-- C8.  `is_valid`/`is_valid_mut` hold exactly when some frame on the
walk from the chain head toward the base grants the access — a
`Base(true)` frame or an `Allocation` record wholly containing
`[ptr, ptr + len)` (and marked mutable for the mutable variant); and the
`Allocation` frame that `allocate_stacked_mut` pushes for its nested
closure makes the fresh range valid on the nested chain while the outer,
pre-nesting chain continues to reject it. -/
theorem is_valid_chain_walk_characterization :
    (∀ (c : MockRtAllocChain) (ptr len : Nat),
      (c.is_valid ptr len = true ↔ ∃ f ∈ c.frames, f.grants ptr len false = true) ∧
      (c.is_valid_mut ptr len = true ↔ ∃ f ∈ c.frames, f.grants ptr len true = true)) ∧
    (∀ (outer : MockRtAllocChain) (ptr len : Nat),
      ptr + len ≤ USIZE_MAX →
      (∀ f ∈ outer.frames, f.grants ptr len false = false) →
      (MockRtAllocChain.allocation { ptr := ptr, len := len, mutable := true }
          outer).is_valid ptr len = true ∧
      outer.is_valid ptr len = false) := by
  constructor
  · intro c ptr len
    exact ⟨is_valid_int_iff_exists_frame c ptr len false,
      is_valid_int_iff_exists_frame c ptr len true⟩
  · intro outer ptr len hno hfree
    constructor
    · rw [MockRtAllocChain.is_valid, MockRtAllocChain.is_valid_int]
      have hm : MockRtAllocation.matches
          { ptr := ptr, len := len, mutable := true } ptr len false = true := by
        simp [MockRtAllocation.matches, hno]
      rw [hm, Bool.true_or]
    · by_contra hvalid
      rw [Bool.not_eq_false] at hvalid
      obtain ⟨f, hf, hgrants⟩ :=
        (is_valid_int_iff_exists_frame outer ptr len false).mp hvalid
      rw [hfree f hf] at hgrants
      cases hgrants

/-- Witness for C8's nested-scoping part: a fresh 4-byte allocation at
address 100 over a bare `Base(false)` chain. -/
theorem is_valid_chain_walk_characterization_witness :
    (100 : Nat) + 4 ≤ USIZE_MAX ∧
    (∀ f ∈ (MockRtAllocChain.base false).frames, f.grants 100 4 false = false) ∧
    (MockRtAllocChain.allocation { ptr := 100, len := 4, mutable := true }
      (.base false)).is_valid 100 4 = true ∧
    (MockRtAllocChain.base false).is_valid 100 4 = false := by
  have h1 : (100 : Nat) + 4 ≤ USIZE_MAX := by rw [USIZE_MAX]; omega
  have h2 : ∀ f ∈ (MockRtAllocChain.base false).frames,
      f.grants 100 4 false = false := by
    intro f hf
    simp only [MockRtAllocChain.frames, List.mem_singleton] at hf
    subst hf
    rfl
  exact ⟨h1, h2, is_valid_chain_walk_characterization.2 (.base false) 100 4 h1 h2⟩

lemma encodeLE_length (k v : Nat) : (encodeLE k v).length = k := by
  induction k generalizing v with
  | zero => rfl
  | succ k ih => simp [encodeLE, ih]

lemma decodeLE_encodeLE (k v : Nat) : decodeLE (encodeLE k v) = v % 2 ^ (8 * k) := by
  induction k generalizing v with
  | zero => simp [encodeLE, decodeLE, Nat.mod_one]
  | succ k ih =>
    rw [encodeLE, decodeLE, ih]
    have hpow : 2 ^ (8 * (k + 1)) = 256 * 2 ^ (8 * k) := by
      rw [Nat.mul_add, Nat.mul_one, Nat.pow_add]
      ring
    rw [hpow, Nat.mod_mul]

lemma writeBytes_inside (mem : Mem) (addr : Nat) (bs : List Nat) (i : Nat)
    (h : i < bs.length) : writeBytes mem addr bs (addr + i) = bs.getD i 0 := by
  have hcond : addr ≤ addr + i ∧ addr + i < addr + bs.length :=
    ⟨Nat.le_add_right _ _, by omega⟩
  simp [writeBytes, hcond, Nat.add_sub_cancel_left]

lemma writeBytes_outside (mem : Mem) (addr : Nat) (bs : List Nat) (a : Nat)
    (h : a < addr ∨ addr + bs.length ≤ a) : writeBytes mem addr bs a = mem a := by
  have hcond : ¬ (addr ≤ a ∧ a < addr + bs.length) := by omega
  simp [writeBytes, hcond]

lemma readBytes_writeBytes (mem : Mem) (addr : Nat) (bs : List Nat) :
    readBytes (writeBytes mem addr bs) addr bs.length = bs := by
  apply List.ext_getElem
  · simp [readBytes]
  · intro i h1 h2
    simp only [readBytes, List.getElem_map, List.getElem_range]
    rw [writeBytes_inside mem addr bs i h2]
    exact List.getD_eq_getElem bs 0 h2

/-- C5.  For a `k`-byte little-endian fixed-width integer type and any
value `v` of it, `OGMutRef::write(v, access_scope)` under a matching
imprint stores `v`'s encoding into the referenced foreign memory (leaving
all other addresses untouched) and returns a validated `OGVal` whose
dereferenced contents are bit-identical to `v`. -/
theorem write_round_trip (k addr imprint v : Nat) (mem : Mem)
    (hv : v < 2 ^ (8 * k)) :
    ∃ mem', ogMutRef_write k ⟨addr, imprint⟩ v imprint mem = .ok (mem', v) ∧
      readBytes mem' addr k = encodeLE k v ∧
      ∀ a, a < addr ∨ addr + k ≤ a → mem' a = mem a := by
  refine ⟨writeBytes mem addr (encodeLE k v), ?_, ?_, ?_⟩
  · rw [ogMutRef_write]
    have hchk : check_access_scope_imprint imprint imprint = none := by
      simp [check_access_scope_imprint]
    rw [hchk]
    simp only
    rw [ogRef_assume_valid, hchk]
    simp only
    have hread : readBytes (writeBytes mem addr (encodeLE k v)) addr k =
        encodeLE k v := by
      have := readBytes_writeBytes mem addr (encodeLE k v)
      rwa [encodeLE_length] at this
    rw [hread, decodeLE_encodeLE, Nat.mod_eq_of_lt hv]
  · have := readBytes_writeBytes mem addr (encodeLE k v)
    rwa [encodeLE_length] at this
  · intro a ha
    apply writeBytes_outside
    rw [encodeLE_length]
    exact ha

/-- Witness for C5: writing the `i32` value `42` (4 bytes) at address 16. -/
theorem write_round_trip_witness :
    (42 : Nat) < 2 ^ (8 * 4) ∧
    ∃ mem', ogMutRef_write 4 ⟨16, 3⟩ 42 3 memZero = .ok (mem', 42) ∧
      readBytes mem' 16 4 = encodeLE 4 42 ∧
      ∀ a, a < 16 ∨ 16 + 4 ≤ a → mem' a = memZero a :=
  ⟨by norm_num, write_round_trip 4 16 3 42 memZero (by norm_num)⟩

lemma writeZipLoop_succ (mem : Mem) (addr n : Nat) (v : Nat) (rest : List Nat) :
    writeZipLoop mem addr (n + 1) (v :: rest) =
      ((writeZipLoop (updateMem mem addr v) (addr + 1) n rest).1,
        (writeZipLoop (updateMem mem addr v) (addr + 1) n rest).2 + 1) := rfl

lemma writeZipLoop_count (n : Nat) (src : List Nat) (mem : Mem) (addr : Nat) :
    (writeZipLoop mem addr n src).2 = min n src.length := by
  induction n generalizing src mem addr with
  | zero => cases src <;> simp [writeZipLoop]
  | succ n ih =>
    cases src with
    | nil => simp [writeZipLoop]
    | cons v rest =>
      rw [writeZipLoop_succ, ih]
      simp [Nat.succ_min_succ]

lemma writeZipLoop_outside (n : Nat) (src : List Nat) (mem : Mem) (addr a : Nat)
    (h : a < addr ∨ addr + min n src.length ≤ a) :
    (writeZipLoop mem addr n src).1 a = mem a := by
  induction n generalizing src mem addr with
  | zero => cases src <;> rfl
  | succ n ih =>
    cases src with
    | nil => rfl
    | cons v rest =>
      rw [writeZipLoop_succ]
      simp only
      have hlen : min (n + 1) (v :: rest).length = min n rest.length + 1 := by
        simp [Nat.succ_min_succ]
      rw [hlen] at h
      have hinner : a < addr + 1 ∨ (addr + 1) + min n rest.length ≤ a := by omega
      rw [ih rest (updateMem mem addr v) (addr + 1) hinner]
      have hne : a ≠ addr := by omega
      simp [updateMem, hne]

lemma writeZipLoop_inside (n : Nat) (src : List Nat) (mem : Mem) (addr i : Nat)
    (h : i < min n src.length) :
    (writeZipLoop mem addr n src).1 (addr + i) = src.getD i 0 := by
  induction n generalizing src mem addr i with
  | zero => omega
  | succ n ih =>
    cases src with
    | nil => simp at h
    | cons v rest =>
      rw [writeZipLoop_succ]
      simp only
      cases i with
      | zero =>
        have hout : addr + 0 < addr + 1 ∨
            (addr + 1) + min n rest.length ≤ addr + 0 := by omega
        rw [writeZipLoop_outside n rest (updateMem mem addr v) (addr + 1) (addr + 0)
          hout]
        simp [updateMem]
      | succ j =>
        have hj : j < min n rest.length := by
          simp [Nat.succ_min_succ] at h
          omega
        have haddr : addr + (j + 1) = (addr + 1) + j := by omega
        rw [haddr, ih rest (updateMem mem addr v) (addr + 1) j hj]
        rfl

lemma readSeq_eq_take (mem' : Mem) (addr n : Nat) (src : List Nat)
    (h : n ≤ src.length) (hmem : ∀ i < n, mem' (addr + i) = src.getD i 0) :
    readSeq mem' addr n = src.take n := by
  apply List.ext_getElem
  · simp [readSeq, Nat.min_eq_left h]
  · intro i h1 h2
    simp only [readSeq, List.getElem_map, List.getElem_range]
    have hi : i < n := by simpa [readSeq] using h1
    rw [hmem i hi]
    have hilen : i < src.length := by omega
    rw [List.getD_eq_getElem src 0 hilen]
    exact (List.getElem_take ..).symm

lemma copyZipLoop_matching (imprint : Nat) (n : Nat) (src : List Nat) (mem : Mem)
    (addr : Nat) :
    copyZipLoop imprint imprint mem addr n src = .ok (writeZipLoop mem addr n src) := by
  induction n generalizing src mem addr with
  | zero => cases src <;> rfl
  | succ n ih =>
    cases src with
    | nil => rfl
    | cons v rest =>
      rw [copyZipLoop]
      simp only [ne_eq, not_true_eq_false, if_false, ih]
      rw [writeZipLoop_succ]

/-- C10.  For an `OGMutSlice` of length `n` over foreign memory and an
iterator yielding the elements of `src` (`m = src.length`), under a
matching access scope: if `m ≥ n`, `write_from_iter` writes exactly the
first `n` yielded elements into the slice in order, ignores the excess,
leaves all other addresses untouched, and returns a validated `OGVal`
over the slice (dereferencing to those `n` elements); if `m < n`, it hits
the `assert!(count == self.len())` panic, with the `m` yielded elements
already written and not rolled back.  `copy_from_slice` behaves
identically. -/
theorem write_from_iter_and_copy_from_slice_spec (s : OGSliceM) (src : List Nat)
    (mem : Mem) :
    (src.length ≥ s.length →
      ∃ mem', ogMutSlice_write_from_iter s src s.imprint mem =
          .ok mem' (src.take s.length) ∧
        ogMutSlice_copy_from_slice s src s.imprint mem =
          .ok mem' (src.take s.length) ∧
        (∀ i < s.length, mem' (s.addr + i) = src.getD i 0) ∧
        (∀ a, a < s.addr ∨ s.addr + s.length ≤ a → mem' a = mem a)) ∧
    (src.length < s.length →
      ∃ mem', ogMutSlice_write_from_iter s src s.imprint mem = .panic_assert mem' ∧
        ogMutSlice_copy_from_slice s src s.imprint mem = .panic_assert mem' ∧
        (∀ i < src.length, mem' (s.addr + i) = src.getD i 0) ∧
        (∀ a, a < s.addr ∨ s.addr + src.length ≤ a → mem' a = mem a)) := by
  constructor
  · intro hge
    refine ⟨(writeZipLoop mem s.addr s.length src).1, ?_, ?_, ?_, ?_⟩
    · rw [ogMutSlice_write_from_iter]
      simp only [ne_eq, not_true_eq_false, if_false]
      have hcount : (writeZipLoop mem s.addr s.length src).2 = s.length := by
        rw [writeZipLoop_count, Nat.min_eq_left hge]
      rw [hcount]
      split
      · rw [readSeq_eq_take _ _ _ _ hge]
        intro i hi
        exact writeZipLoop_inside s.length src mem s.addr i
          (by rw [Nat.min_eq_left hge]; exact hi)
      · rename_i hfalse
        exact absurd rfl hfalse
    · rw [ogMutSlice_copy_from_slice, copyZipLoop_matching]
      simp only
      have hcount : (writeZipLoop mem s.addr s.length src).2 = s.length := by
        rw [writeZipLoop_count, Nat.min_eq_left hge]
      rw [hcount]
      split
      · rw [readSeq_eq_take _ _ _ _ hge]
        intro i hi
        exact writeZipLoop_inside s.length src mem s.addr i
          (by rw [Nat.min_eq_left hge]; exact hi)
      · rename_i hfalse
        exact absurd rfl hfalse
    · intro i hi
      exact writeZipLoop_inside s.length src mem s.addr i
        (by rw [Nat.min_eq_left hge]; exact hi)
    · intro a ha
      exact writeZipLoop_outside s.length src mem s.addr a
        (by rw [Nat.min_eq_left hge]; exact ha)
  · intro hlt
    have hmin : min s.length src.length = src.length :=
      Nat.min_eq_right (Nat.le_of_lt hlt)
    refine ⟨(writeZipLoop mem s.addr s.length src).1, ?_, ?_, ?_, ?_⟩
    · rw [ogMutSlice_write_from_iter]
      simp only [ne_eq, not_true_eq_false, if_false]
      have hcount : (writeZipLoop mem s.addr s.length src).2 = src.length := by
        rw [writeZipLoop_count, hmin]
      rw [hcount]
      split
      · rename_i htrue
        omega
      · rfl
    · rw [ogMutSlice_copy_from_slice, copyZipLoop_matching]
      simp only
      have hcount : (writeZipLoop mem s.addr s.length src).2 = src.length := by
        rw [writeZipLoop_count, hmin]
      rw [hcount]
      split
      · rename_i htrue
        omega
      · rfl
    · intro i hi
      exact writeZipLoop_inside s.length src mem s.addr i (by rw [hmin]; exact hi)
    · intro a ha
      exact writeZipLoop_outside s.length src mem s.addr a (by rw [hmin]; exact ha)

/-- Witness for C10: a 2-element slice at address 50, filled from a
3-element source (the `m ≥ n` case of the theorem). -/
theorem write_from_iter_spec_witness :
    [10, 20, 30].length ≥ (OGSliceM.mk 50 2 7).length ∧
    ∃ mem', ogMutSlice_write_from_iter ⟨50, 2, 7⟩ [10, 20, 30] 7 memZero =
        .ok mem' ([10, 20, 30].take 2) ∧
      ogMutSlice_copy_from_slice ⟨50, 2, 7⟩ [10, 20, 30] 7 memZero =
        .ok mem' ([10, 20, 30].take 2) ∧
      (∀ i < (OGSliceM.mk 50 2 7).length,
        mem' (50 + i) = [10, 20, 30].getD i 0) ∧
      (∀ a, a < 50 ∨ 50 + 2 ≤ a → mem' a = memZero a) :=
  ⟨by decide,
    (write_from_iter_and_copy_from_slice_spec ⟨50, 2, 7⟩ [10, 20, 30] memZero).1
      (by decide)⟩

lemma tzAux_pow_dvd : ∀ (fuel n : Nat), n ≠ 0 → n < 2 ^ fuel →
    2 ^ trailingZerosAux fuel n ∣ n := by
  intro fuel
  induction fuel with
  | zero => intro n hne hlt; omega
  | succ fuel ih =>
    intro n hne hlt
    rw [trailingZerosAux]
    by_cases hodd : n % 2 = 1
    · rw [if_pos hodd]
      simp
    · rw [if_neg hodd]
      have heven : n % 2 = 0 := by omega
      have hhalf_ne : n / 2 ≠ 0 := by omega
      have hhalf_lt : n / 2 < 2 ^ fuel := by
        rw [pow_succ] at hlt
        omega
      have hdvd := ih (n / 2) hhalf_ne hhalf_lt
      have hn : n = 2 * (n / 2) := by omega
      have hstep : 2 ^ (1 + trailingZerosAux fuel (n / 2)) ∣ 2 * (n / 2) := by
        rw [pow_add, pow_one]
        exact mul_dvd_mul_left 2 hdvd
      rwa [← hn] at hstep

lemma le_tzAux_of_pow_dvd : ∀ (fuel n j : Nat), n ≠ 0 → n < 2 ^ fuel →
    2 ^ j ∣ n → j ≤ trailingZerosAux fuel n := by
  intro fuel
  induction fuel with
  | zero => intro n j hne hlt; omega
  | succ fuel ih =>
    intro n j hne hlt hdvd
    rw [trailingZerosAux]
    by_cases hodd : n % 2 = 1
    · rw [if_pos hodd]
      by_contra hj
      push_neg at hj
      have h2 : (2 : Nat) ∣ n := dvd_trans (pow_dvd_pow 2 (by omega : 1 ≤ j))
        (by simpa using hdvd)
      omega
    · rw [if_neg hodd]
      cases j with
      | zero => omega
      | succ j' =>
        have heven : n % 2 = 0 := by omega
        have hhalf_ne : n / 2 ≠ 0 := by omega
        have hhalf_lt : n / 2 < 2 ^ fuel := by
          rw [pow_succ] at hlt
          omega
        have hdvd' : 2 ^ j' ∣ n / 2 := by
          obtain ⟨c, hc⟩ := hdvd
          refine ⟨c, ?_⟩
          have hc2 : n = 2 * (2 ^ j' * c) := by
            rw [hc, pow_succ]
            ring
          rw [hc2, Nat.mul_div_cancel_left _ (by norm_num)]
        have := ih (n / 2) j' hhalf_ne hhalf_lt hdvd'
        omega

lemma two_pow_dvd_iff_testBit (n j : Nat) :
    2 ^ j ∣ n ↔ ∀ i, i < j → n.testBit i = false := by
  constructor
  · intro hdvd i hij
    obtain ⟨c, rfl⟩ := hdvd
    rw [Nat.testBit_to_div_mod]
    simp only [decide_eq_false_iff_not]
    have hsplit : 2 ^ (j - i) * 2 ^ i = 2 ^ j := by
      rw [← pow_add]
      congr 1
      omega
    have hnum : 2 ^ j * c = 2 ^ (j - i) * c * 2 ^ i := by
      rw [← hsplit]
      ring
    rw [hnum, Nat.mul_div_cancel _ (Nat.pos_pow_of_pos i (by norm_num))]
    have h2 : (2 : Nat) ∣ 2 ^ (j - i) * c :=
      Dvd.dvd.mul_right (dvd_pow_self 2 (by omega)) c
    omega
  · intro hbits
    have hmod : n % 2 ^ j = 0 := by
      apply Nat.eq_of_testBit_eq
      intro i
      rw [Nat.testBit_mod_two_pow, Nat.zero_testBit]
      by_cases hij : i < j
      · simp [hij, hbits i hij]
      · simp [hij]
    exact Nat.dvd_of_mod_eq_zero hmod

lemma two_pow_dvd_lor_iff (a b j : Nat) :
    2 ^ j ∣ (a ||| b) ↔ 2 ^ j ∣ a ∧ 2 ^ j ∣ b := by
  simp only [two_pow_dvd_iff_testBit, Nat.testBit_lor, Bool.or_eq_false_iff]
  constructor
  · intro h
    exact ⟨fun i hi => (h i hi).1, fun i hi => (h i hi).2⟩
  · rintro ⟨h1, h2⟩ i hi
    exact ⟨h1 i hi, h2 i hi⟩

lemma pow_le_two_pow_tz_iff (x j : Nat) (hx : x ≠ 0) (hlt : x < 2 ^ 64) :
    2 ^ j ≤ 2 ^ trailingZeros x ↔ 2 ^ j ∣ x := by
  rw [Nat.pow_le_pow_iff_right (by norm_num : 1 < 2)]
  constructor
  · intro hj
    exact dvd_trans (pow_dvd_pow 2 hj) (tzAux_pow_dvd 64 x hx hlt)
  · intro hdvd
    exact le_tzAux_of_pow_dvd 64 x j hx hlt hdvd

lemma sub_ref_some_iff_check (sizeT alignT sizeU alignU byte_offset : Nat)
    (r : OGRefM) :
    (∃ r', sub_ref sizeT alignT sizeU alignU r byte_offset = some r') ↔
      sub_ref_check sizeT alignT sizeU alignU byte_offset = true := by
  rw [sub_ref]
  split
  · rename_i hcheck
    simp [hcheck]
  · rename_i hcheck
    simpa using hcheck

/-- C6.  `sub_ref::<U>(byte_offset)` returns `None` whenever
`byte_offset + size_of::<U>()` overflows `usize` or exceeds
`size_of::<T>()`; otherwise it returns `Some` if and only if
`align_of::<U>() ≤ 2^(trailing_zeros(align_of::<T>() | byte_offset))`,
which — alignments being powers of two — holds exactly when `U`'s
alignment divides both `T`'s alignment and the offset; in particular a
16-byte/16-aligned `U` at offset 8 inside a 32-byte/8-aligned `T` is
rejected. -/
theorem sub_ref_bounds_and_alignment (sizeT sizeU byte_offset i j : Nat)
    (alignT alignU : Nat) (r : OGRefM)
    (hT : alignT = 2 ^ i) (hU : alignU = 2 ^ j)
    (hTb : alignT ≤ USIZE_MAX) (hob : byte_offset ≤ USIZE_MAX) :
    (byte_offset + sizeU > sizeT ∨ byte_offset + sizeU > USIZE_MAX →
      sub_ref sizeT alignT sizeU alignU r byte_offset = none) ∧
    (byte_offset + sizeU ≤ sizeT → byte_offset + sizeU ≤ USIZE_MAX →
      ((∃ r', sub_ref sizeT alignT sizeU alignU r byte_offset = some r') ↔
        alignU ≤ 2 ^ trailingZeros (alignT ||| byte_offset)) ∧
      ((∃ r', sub_ref sizeT alignT sizeU alignU r byte_offset = some r') ↔
        alignU ∣ alignT ∧ alignU ∣ byte_offset) ∧
      (∀ r', sub_ref sizeT alignT sizeU alignU r byte_offset = some r' →
        r' = ⟨r.addr + byte_offset, r.imprint⟩)) ∧
    (∀ r0 : OGRefM, sub_ref 32 8 16 16 r0 8 = none) := by
  have hlor_ne : alignT ||| byte_offset ≠ 0 := by
    intro hzero
    have hbit : (alignT ||| byte_offset).testBit i = true := by
      rw [hT, Nat.testBit_lor, Nat.testBit_two_pow_self, Bool.true_or]
    rw [hzero, Nat.zero_testBit] at hbit
    cases hbit
  have hlor_lt : alignT ||| byte_offset < 2 ^ 64 := by
    apply Nat.bitwise_lt
    · rw [USIZE_MAX] at hTb
      omega
    · rw [USIZE_MAX] at hob
      omega
  refine ⟨?_, ?_, ?_⟩
  · intro hbig
    rw [sub_ref]
    have hcheck : sub_ref_check sizeT alignT sizeU alignU byte_offset = false := by
      rw [sub_ref_check]
      rcases Nat.lt_or_ge USIZE_MAX (byte_offset + sizeU) with hov | hnov
      · rw [if_pos hov]
      · rw [if_neg (by omega), if_pos (by omega)]
    rw [hcheck]
    rfl
  · intro hfit hnov
    have hcheck_iff : sub_ref_check sizeT alignT sizeU alignU byte_offset = true ↔
        alignU ≤ 2 ^ trailingZeros (alignT ||| byte_offset) := by
      rw [sub_ref_check, if_neg (by omega), if_neg (by omega)]
      have hshift : (1 : Nat) <<< trailingZeros (alignT ||| byte_offset) =
          2 ^ trailingZeros (alignT ||| byte_offset) := by
        rw [Nat.shiftLeft_eq, one_mul]
      rw [hshift]
      by_cases hgt : alignU > 2 ^ trailingZeros (alignT ||| byte_offset)
      · rw [if_pos hgt]
        constructor
        · intro hfalse
          cases hfalse
        · intro hle
          omega
      · rw [if_neg hgt]
        constructor
        · intro _
          omega
        · intro _
          rfl
    refine ⟨?_, ?_, ?_⟩
    · rw [sub_ref_some_iff_check]
      exact hcheck_iff
    · rw [sub_ref_some_iff_check, hcheck_iff, hU]
      rw [pow_le_two_pow_tz_iff _ j hlor_ne hlor_lt, two_pow_dvd_lor_iff, hT]
    · intro r' hr'
      rw [sub_ref] at hr'
      split at hr'
      · cases hr'
        rfl
      · cases hr'
  · intro r0
    have hcheck : sub_ref_check 32 8 16 16 8 = false := by decide
    rw [sub_ref, hcheck]
    rfl

/-- Witness for C6: `T` 8-byte/8-aligned, `U` 4-byte/4-aligned at offset
4 — in bounds, and `4 ∣ 8` and `4 ∣ 4`, so the sub-reference exists. -/
theorem sub_ref_bounds_and_alignment_witness :
    (8 : Nat) = 2 ^ 3 ∧ (4 : Nat) = 2 ^ 2 ∧
    (8 : Nat) ≤ USIZE_MAX ∧ (4 : Nat) ≤ USIZE_MAX ∧
    ((∃ r', sub_ref 8 8 4 4 ⟨0, 5⟩ 4 = some r') ↔ (4 : Nat) ∣ 8 ∧ (4 : Nat) ∣ 4) :=
  ⟨by decide, by decide, by rw [USIZE_MAX]; omega, by rw [USIZE_MAX]; omega,
    ((sub_ref_bounds_and_alignment 8 4 4 3 2 8 4 ⟨0, 5⟩ (by decide) (by decide)
      (by rw [USIZE_MAX]; omega) (by rw [USIZE_MAX]; omega)).2.1
      (by decide) (by rw [USIZE_MAX]; omega)).2.1⟩

end Omniglot
